import Mathlib

/-!
Verification of the gofile-web downloader core (`gofile.js`).

The development shallowly embeds the `GoFileDownloader` class: the recursive
content resolver (`parseLinksRecursively`), the resumable download engine
(`downloadContent` / `download`), the artist/album classifier
(`parseArtistAlbum`), the archive organizer (`organizeMusicFolder`), and the
request construction for password-protected content (including the SHA-256
digest the code computes with `createHash('sha256')`).

File-system state is modelled as a finite map from paths to file sizes;
HTTP responses are modelled as records carrying status, the content-length
header value, the number of body bytes delivered, and whether the body stream
errors.  JavaScript string operations used by the code (`split`, `trim`,
`parseInt`, truthiness of strings) are given faithful list-of-characters
implementations below.  Recursions are written structurally (with explicit
fuel where needed) so that every definition evaluates inside the kernel.
-/

namespace GoFileWeb

/-! ## JavaScript string primitives -/

/-- Boolean prefix test on character lists. -/
def isPref : List Char → List Char → Bool
  | [], _ => true
  | _ :: _, [] => false
  | a :: as, b :: bs => a = b && isPref as bs

/-- `findSep sep s` locates the first occurrence of the (non-empty) separator
`a :: sep` in `s`, returning the text before it and the text after it. -/
def findSep (a : Char) (sep : List Char) : List Char → Option (List Char × List Char)
  | [] => none
  | c :: cs =>
    if isPref (a :: sep) (c :: cs) then some ([], cs.drop sep.length)
    else
      match findSep a sep cs with
      | some (p, r) => some (c :: p, r)
      | none => none

/-- Fuel-driven worker for JavaScript `split`; `splitStr` supplies enough
fuel, so the base cases below are never reached with a shorter list. -/
def splitStrF (a : Char) (sep : List Char) : Nat → List Char → List (List Char)
  | 0, s => [s]
  | fuel + 1, s =>
    match findSep a sep s with
    | none => [s]
    | some (p, r) => p :: splitStrF a sep fuel r

/-- JavaScript `s.split(sep)` for a non-empty separator `a :: sep`,
on character lists. -/
def splitStr (a : Char) (sep : List Char) (s : List Char) : List (List Char) :=
  splitStrF a sep s.length s

/-- JavaScript `parts.join(sep)` on character lists. -/
def joinChars (sep : List Char) : List (List Char) → List Char
  | [] => []
  | [x] => x
  | x :: y :: r => x ++ sep ++ joinChars sep (y :: r)

/-- JavaScript `String.prototype.trim` on character lists. -/
def trimChars (l : List Char) : List Char :=
  ((l.dropWhile Char.isWhitespace).reverse.dropWhile Char.isWhitespace).reverse

/-- `s.split('/').pop()`: the text after the last `/` (the whole string when
there is no `/`). -/
def lastComponent (s : String) : String :=
  String.mk ((splitStr '/' [] s.toList).getLastD [])

/-- Value of one character as a digit in the given radix (JavaScript
`parseInt` digit handling, case-insensitive). -/
def digitValue (radix : Nat) (c : Char) : Option Nat :=
  let v : Option Nat :=
    if '0' ≤ c ∧ c ≤ '9' then some (c.toNat - 48)
    else if 'a' ≤ c ∧ c ≤ 'z' then some (c.toNat - 87)
    else if 'A' ≤ c ∧ c ≤ 'Z' then some (c.toNat - 55)
    else none
  match v with
  | some n => if n < radix then some n else none
  | none => none

/-- Longest leading run of digits in the given radix. -/
def leadDigits (radix : Nat) : List Char → List Nat
  | [] => []
  | c :: cs =>
    match digitValue radix c with
    | some d => d :: leadDigits radix cs
    | none => []

def valOfDigits (radix : Nat) (ds : List Nat) : Nat :=
  ds.foldl (fun a d => a * radix + d) 0

/-- JavaScript `parseInt(s)` (radix unspecified): skip leading whitespace,
optional sign, `0x`/`0X` selects radix 16, then the longest run of digits;
no digits gives `NaN`, modelled as `none`. -/
def parseIntJS (s : String) : Option Int :=
  let cs := s.toList.dropWhile Char.isWhitespace
  let sgncs : Int × List Char :=
    match cs with
    | '-' :: r => (-1, r)
    | '+' :: r => (1, r)
    | _ => (1, cs)
  let radcs : Nat × List Char :=
    match sgncs.2 with
    | '0' :: 'x' :: r => (16, r)
    | '0' :: 'X' :: r => (16, r)
    | _ => (10, sgncs.2)
  let ds := leadDigits radcs.1 radcs.2
  if ds = [] then none else some (sgncs.1 * (valOfDigits radcs.1 ds : Int))

/-! ## Remote tree and the content resolver (`parseLinksRecursively`) -/

/-- One manifest entry, as stored in `this.filesInfo`
(`{path: this.rootDir, filename: child.name, link: child.link}`). -/
structure FileInfo where
  path : String
  filename : String
  link : String
deriving Repr, DecidableEq

/-- A remote node as the API reports it: a folder with children in the order
received, a file leaf with name and direct link, or `bad` — a node whose
`GET /contents/...` fetch returns a non-ok status (the code throws there). -/
inductive RNode where
  | bad
  | file (name link : String)
  | folder (children : List RNode)

/-- The resolver state: `this.recursiveFilesIndex` and `this.filesInfo`
(an integer-keyed map, kept here as an association list in insertion order). -/
abbrev PState := Nat × List (Nat × FileInfo)

/-- `this.recursiveFilesIndex++; this.filesInfo[this.recursiveFilesIndex] = ...` -/
def appendEntry (rootDir n l : String) : PState → PState
  | (i, m) => (i + 1, m ++ [(i + 1, ⟨rootDir, n, l⟩)])

mutual
/-- `parseLinksRecursively` of `gofile.js` (lines 101-147): a folder node
iterates its children in order, recursing into folder children and appending
one manifest entry per file child; a non-folder node appends one entry.
The Bool is `false` when a visited node's fetch fails (the code throws;
entries appended before the throw stay in `this.filesInfo`). -/
def parseLinksRecursively (rootDir : String) : RNode → PState → PState × Bool
  | .bad, st => (st, false)
  | .file n l, st => (appendEntry rootDir n l st, true)
  | .folder cs, st => parseChildren rootDir cs st
/-- The `for (const childId in content.children)` loop body. -/
def parseChildren (rootDir : String) : List RNode → PState → PState × Bool
  | [], st => (st, true)
  | c :: cs, st =>
    match c with
    | .file n l => parseChildren rootDir cs (appendEntry rootDir n l st)
    | .folder gs =>
      match parseLinksRecursively rootDir (.folder gs) st with
      | (st2, true) => parseChildren rootDir cs st2
      | (st2, false) => (st2, false)
    | .bad => (st, false)
end

mutual
/-- The file leaves of a remote tree, in depth-first traversal order. -/
def leaves : RNode → List (String × String)
  | .bad => []
  | .file n l => [(n, l)]
  | .folder cs => leavesList cs
def leavesList : List RNode → List (String × String)
  | [] => []
  | c :: cs => leaves c ++ leavesList cs
end

mutual
/-- Whether every node fetch in the tree succeeds. -/
def noBad : RNode → Bool
  | .bad => false
  | .file _ _ => true
  | .folder cs => noBadList cs
def noBadList : List RNode → Bool
  | [] => true
  | c :: cs => noBad c && noBadList cs
end

/-- The manifest entries a leaf list produces when the index counter starts
at `i`: keys `i+1, i+2, ...` in traversal order. -/
def indexedFrom (rootDir : String) : Nat → List (String × String) → List (Nat × FileInfo)
  | _, [] => []
  | i, (n, l) :: r => (i + 1, ⟨rootDir, n, l⟩) :: indexedFrom rootDir (i + 1) r

/-! ## File-system and HTTP transfer model, download engine (`downloadContent`) -/

/-- On-disk state: a finite map from paths to file sizes (association list,
first binding wins). -/
abbrev FS := List (String × Nat)

def lookupFS : FS → String → Option Nat
  | [], _ => none
  | (q, n) :: r, p => if q = p then some n else lookupFS r p

def removeFS (fs : FS) (p : String) : FS :=
  fs.filter (fun e => !(e.1 == p))

def setFS (fs : FS) (p : String) (n : Nat) : FS :=
  (p, n) :: removeFS fs p

/-- `path.join(a, b)` for a simple relative file name. -/
def joinPath (a b : String) : String := a ++ "/" ++ b

/-- An HTTP response to one transfer request: status code, the value of the
`content-length` header (`none` when absent), the number of body bytes the
stream delivers, and whether the body stream errors after delivering them.
`response.ok` is the derived property `200 ≤ status < 300`. -/
structure Resp where
  status : Nat
  contentLength : Option String
  bodyLen : Nat
  bodyErr : Bool

/-- Per-entry outcome of the download engine (the spec's
`Completed | Skipped | Failed`). -/
inductive Outcome where
  | Completed
  | Skipped
  | Failed
deriving Repr, DecidableEq

/-- `outcome o`: `downloadContent` returned normally with outcome `o`;
`raised`: it raised (stream error rejecting the awaited promise). -/
inductive FetchRes where
  | outcome (o : Outcome)
  | raised
deriving Repr, DecidableEq

/-- Result of one `downloadContent` call: how it ended, the resulting
file-system state, and the transfer request issued, if any —
`some (link, some k)` is a request carrying a byte-range header starting at
offset `k`, `some (link, none)` a range-free request, `none` no network
activity. -/
structure FetchOut where
  res : FetchRes
  fs : FS
  req : Option (String × Option Nat)
deriving Repr, DecidableEq

/-- Lines 218-220 of `gofile.js`: `totalSize = partSize === 0 ? contentLength
: contentLength ? contentLength.split('/').pop() : null` (an empty-string
header value is falsy in the resumed branch). -/
def totalSizeRaw (partSize : Nat) (cl : Option String) : Option String :=
  if partSize = 0 then cl
  else
    match cl with
    | none => none
    | some s => if s = "" then none else some (lastComponent s)

/-- `downloadContent` of `gofile.js` (lines 188-271), for the configuration
with no music-library root (`organizeMusicFolder` returns immediately then;
the organizer itself is modelled separately below).  Steps, in code order:
skip when the final path holds a non-zero-size file; read the partial file's
size and set the `Range` header whenever the partial file exists; issue the
request; validate status; determine the declared total; append the body to
the partial file; on exact size match copy to the final path and delete the
partial file, otherwise return leaving the partial file in place. -/
def downloadContent (net : String → Option Nat → Resp) (rootDir : String)
    (fi : FileInfo) (fs : FS) : FetchOut :=
  let filepath := joinPath rootDir fi.filename
  if 0 < (lookupFS fs filepath).getD 0 then
    ⟨.outcome .Skipped, fs, none⟩
  else
    let tmpFile := filepath ++ ".part"
    let range := lookupFS fs tmpFile
    let partSize := range.getD 0
    let resp := net fi.link range
    if ¬(200 ≤ resp.status ∧ resp.status < 300) ∨
        (partSize = 0 ∧ resp.status ≠ 200) ∨ (partSize ≠ 0 ∧ resp.status ≠ 206) then
      ⟨.outcome .Failed, fs, some (fi.link, range)⟩
    else
      match totalSizeRaw partSize resp.contentLength with
      | none => ⟨.outcome .Failed, fs, some (fi.link, range)⟩
      | some ts =>
        if ts = "" then ⟨.outcome .Failed, fs, some (fi.link, range)⟩
        else
          let written := partSize + resp.bodyLen
          let fs2 := setFS fs tmpFile written
          if resp.bodyErr then ⟨.raised, fs2, some (fi.link, range)⟩
          else if parseIntJS ts = some (written : Int) then
            ⟨.outcome .Completed, removeFS (setFS fs2 filepath written) tmpFile,
              some (fi.link, range)⟩
          else
            ⟨.outcome .Failed, fs2, some (fi.link, range)⟩

/-- The manifest loop of `download` (lines 172-174): entries are processed
in order, each to completion; a raised exception aborts the loop (Bool
`true`), a returned outcome lets the next entry proceed. -/
def downloadAll (net : String → Option Nat → Resp) (rootDir : String) :
    List FileInfo → FS → List (Outcome × Option (String × Option Nat)) × Bool × FS
  | [], fs => ([], false, fs)
  | fi :: rest, fs =>
    let r := downloadContent net rootDir fi fs
    match r.res with
    | .raised => ([], true, r.fs)
    | .outcome o =>
      let (os, ab, fs2) := downloadAll net rootDir rest r.fs
      ((o, r.req) :: os, ab, fs2)

/-! ## SHA-256 (`createHash('sha256').update(password).digest('hex')`)

The code hashes passwords with Node's crypto SHA-256; the standard algorithm
is implemented here over `Nat` with explicit reduction modulo `2^32`. -/

def w32 (n : Nat) : Nat := n % 4294967296

def rotr32 (x n : Nat) : Nat := w32 ((x >>> n) ||| (x <<< (32 - n)))

def bigSigma0 (x : Nat) : Nat := rotr32 x 2 ^^^ rotr32 x 13 ^^^ rotr32 x 22
def bigSigma1 (x : Nat) : Nat := rotr32 x 6 ^^^ rotr32 x 11 ^^^ rotr32 x 25
def smallSigma0 (x : Nat) : Nat := rotr32 x 7 ^^^ rotr32 x 18 ^^^ (x >>> 3)
def smallSigma1 (x : Nat) : Nat := rotr32 x 17 ^^^ rotr32 x 19 ^^^ (x >>> 10)
def chFn (e f g : Nat) : Nat := (e &&& f) ^^^ ((e ^^^ 4294967295) &&& g)
def majFn (a b c : Nat) : Nat := (a &&& b) ^^^ (a &&& c) ^^^ (b &&& c)

/-- Primality by trial division, enough for the first 64 primes. -/
def isPrimeTD (n : Nat) : Bool :=
  decide (2 ≤ n) && (List.range n).all (fun d => d < 2 || decide (n % d ≠ 0))

/-- The first 64 primes, 2 … 311. -/
def primes64 : List Nat := ((List.range 320).filter isPrimeTD).take 64

/-- Integer cube root (largest `r` with `r³ ≤ n`), bit by bit. -/
def icbrt (n : Nat) : Nat :=
  (List.range 64).foldl
    (fun r i =>
      let c := r + (1 <<< (63 - i))
      if c * c * c ≤ n then c else r) 0

/-- Integer square root (largest `r` with `r² ≤ n`), bit by bit. -/
def isqrt (n : Nat) : Nat :=
  (List.range 64).foldl
    (fun r i =>
      let c := r + (1 <<< (63 - i))
      if c * c ≤ n then c else r) 0

/-- The 64 SHA-256 round constants (FIPS 180-4): the first 32 bits of the
fractional parts of the cube roots of the first 64 primes.  Given as
decimal literals; `sha256K_spec` below checks them against the prime
derivation `⌊∛(p·2⁹⁶)⌋ mod 2³²`. -/
def sha256K : List Nat :=
  [1116352408, 1899447441, 3049323471, 3921009573, 961987163, 1508970993,
   2453635748, 2870763221, 3624381080, 310598401, 607225278, 1426881987,
   1925078388, 2162078206, 2614888103, 3248222580, 3835390401, 4022224774,
   264347078, 604807628, 770255983, 1249150122, 1555081692, 1996064986,
   2554220882, 2821834349, 2952996808, 3210313671, 3336571891, 3584528711,
   113926993, 338241895, 666307205, 773529912, 1294757372, 1396182291,
   1695183700, 1986661051, 2177026350, 2456956037, 2730485921, 2820302411,
   3259730800, 3345764771, 3516065817, 3600352804, 4094571909, 275423344,
   430227734, 506948616, 659060556, 883997877, 958139571, 1322822218,
   1537002063, 1747873779, 1955562222, 2024104815, 2227730452, 2361852424,
   2428436474, 2756734187, 3204031479, 3329325298]

/-- The eight SHA-256 initial hash values: the first 32 bits of the
fractional parts of the square roots of the first 8 primes; checked against
`⌊√(p·2⁶⁴)⌋ mod 2³²` by `sha256H0_spec` below. -/
def sha256H0 : List Nat :=
  [1779033703, 3144134277, 1013904242, 2773480762, 1359893119, 2600822924,
   528734635, 1541459225]

/-- UTF-8 encoding of one code point (Node hashes the UTF-8 bytes of the
password string). -/
def utf8Bytes (c : Char) : List Nat :=
  let n := c.toNat
  if n < 128 then [n]
  else if n < 2048 then [192 ||| (n >>> 6), 128 ||| (n &&& 63)]
  else if n < 65536 then
    [224 ||| (n >>> 12), 128 ||| ((n >>> 6) &&& 63), 128 ||| (n &&& 63)]
  else
    [240 ||| (n >>> 18), 128 ||| ((n >>> 12) &&& 63), 128 ||| ((n >>> 6) &&& 63), 128 ||| (n &&& 63)]

def strBytes (s : String) : List Nat := s.toList.flatMap utf8Bytes

/-- Big-endian byte decomposition, `k` bytes. -/
def bytesBE (k n : Nat) : List Nat :=
  (List.range k).map (fun i => (n >>> (8 * (k - 1 - i))) &&& 255)

/-- SHA-256 padding: `0x80`, zeros to 56 mod 64, then the 64-bit bit length. -/
def padMessage (msg : List Nat) : List Nat :=
  let padZeros := (119 - msg.length % 64) % 64
  msg ++ [128] ++ List.replicate padZeros 0 ++ bytesBE 8 (8 * msg.length)

/-- Big-endian 32-bit words from bytes. -/
def toWords : List Nat → List Nat
  | b0 :: b1 :: b2 :: b3 :: rest =>
    ((b0 <<< 24) ||| (b1 <<< 16) ||| (b2 <<< 8) ||| b3) :: toWords rest
  | _ => []

/-- 16-word blocks (fuel-driven; the wrapper passes the list length). -/
def blocksF : Nat → List Nat → List (List Nat)
  | _, [] => []
  | 0, ws => [ws]
  | fuel + 1, w :: ws => ((w :: ws).take 16) :: blocksF fuel ((w :: ws).drop 16)

/-- `k`-back access into the reversed schedule. -/
def wdGet (w : List Nat) (k : Nat) : Nat := w.getD (k - 1) 0

/-- Extend a 16-word block to the 64-word message schedule. -/
def msgSchedule (block : List Nat) : List Nat :=
  ((List.range 48).foldl
    (fun w _ =>
      w32 (wdGet w 16 + smallSigma0 (wdGet w 15) + wdGet w 7 + smallSigma1 (wdGet w 2)) :: w)
    block.reverse).reverse

/-- One SHA-256 compression round on the 8-word state. -/
def compressStep (st : List Nat) (kw : Nat × Nat) : List Nat :=
  match st with
  | [a, b, c, d, e, f, g, h] =>
    let t1 := w32 (h + bigSigma1 e + chFn e f g + kw.1 + kw.2)
    let t2 := w32 (bigSigma0 a + majFn a b c)
    [w32 (t1 + t2), a, b, c, w32 (d + t1), e, f, g]
  | other => other

def processBlock (h : List Nat) (block : List Nat) : List Nat :=
  let w := msgSchedule block
  let st := (sha256K.zip w).foldl compressStep h
  (h.zip st).map (fun p => w32 (p.1 + p.2))

def sha256Words (msg : List Nat) : List Nat :=
  (blocksF (padMessage msg).length (toWords (padMessage msg))).foldl processBlock sha256H0

def hexDigit (n : Nat) : Char :=
  if n < 10 then Char.ofNat (48 + n) else Char.ofNat (87 + n)

def toHex8 (n : Nat) : List Char :=
  (List.range 8).map (fun i => hexDigit ((n >>> (4 * (7 - i))) &&& 15))

/-- Lowercase hex SHA-256 digest of a string, as `digest('hex')` returns. -/
def sha256Hex (s : String) : String :=
  String.mk ((sha256Words (strBytes s)).flatMap toHex8)

/-! ## Request construction for `GET /contents/{id}` (lines 102-115) -/

/-- The URL path `https://api.gofile.io/contents/` + content id. -/
def contentsUrlPath (contentId : String) : String :=
  "https://api.gofile.io/contents/" ++ contentId

/-- The query parameters `parseLinksRecursively` appends: `wt`, `cache`, and —
only when a password is provided (JavaScript truthiness: non-empty) — its
SHA-256 hex digest under `password`. -/
def contentsParams (password : Option String) : List (String × String) :=
  [("wt", "4fd6sg89d7s6"), ("cache", "true")] ++
    (match password with
     | some p => if p = "" then [] else [("password", sha256Hex p)]
     | none => [])

/-! ## Artist/album classification and the archive organizer -/

/-- `parseArtistAlbum` of `gofile.js` (lines 279-290): split on `" - "`;
fewer than two segments throws (modelled as `none`); otherwise artist is the
trimmed first segment, album the remaining segments re-joined with `" - "`
and trimmed. -/
def parseArtistAlbum (folderName : String) : Option (String × String) :=
  let parts := splitStr ' ' ['-', ' '] folderName.toList
  if parts.length < 2 then none
  else
    some (String.mk (trimChars (parts.headD [])),
      String.mk (trimChars (joinChars [' ', '-', ' '] (parts.drop 1))))

/-- `s.endsWith(suf)`. -/
def jsEndsWith (s suf : String) : Bool :=
  isPref suf.toList.reverse s.toList.reverse

/-- Observable state of the archive organizer: whether the original archive
file and the temporary extraction directory are on disk, which
artist/album directories exist under the music root, and the error log. -/
structure MusicState where
  archivePresent : Bool
  tempPresent : Bool
  library : List (String × String)
  errorsLog : List String
deriving Repr, DecidableEq

/-- Body of the organizer's per-item loop (lines 313-337): only directories
are examined; a name that fails to classify logs an error for that item and
processing continues; a parsed (artist, album) pair is moved into the music
library unless the target album directory already exists. -/
def organizeItem (st : MusicState) (item : String) (isDir : Bool) : MusicState :=
  if isDir then
    match parseArtistAlbum item with
    | some aa =>
      if aa ∈ st.library then st
      else { st with library := st.library ++ [aa] }
    | none => { st with errorsLog := st.errorsLog ++ [item] }
  else st

/-- `organizeMusicFolder` of `gofile.js` (lines 297-347).  `extractOk` is
whether `unzipFile` succeeds; `items` are the extraction directory's
immediate children with their is-directory flags.  Control flow mirrors the
code: immediate return when no music root is configured; nothing for a
non-`.zip` source; an extraction failure is caught by the outer handler
after the temporary directory was created, skipping cleanup; otherwise the
per-item loop runs (each item's failures caught individually) and then the
archive file and the temporary directory are removed unconditionally. -/
def organizeMusicFolder (musicDir : String) (extractOk : Bool)
    (items : List (String × Bool)) (sourcePath : String) (st : MusicState) : MusicState :=
  if musicDir = "" then st
  else if ¬ jsEndsWith sourcePath ".zip" then st
  else if ¬ extractOk then
    { st with tempPresent := true, errorsLog := st.errorsLog ++ [sourcePath] }
  else
    let st1 : MusicState := { st with tempPresent := true }
    let st2 := items.foldl (fun s it => organizeItem s it.1 it.2) st1
    { st2 with archivePresent := false, tempPresent := false }

/-! ## Top-level `download` (lines 155-179) -/

/-- The downloader's shared mutable state: `this.filesInfo` and
`this.recursiveFilesIndex`. -/
structure DState where
  filesInfo : List (Nat × FileInfo)
  recursiveFilesIndex : Nat
deriving Repr, DecidableEq

/-- The spec's error taxonomy for a whole invocation. -/
inductive DlError where
  | invalidInput
  | authFailure
  | resolutionFailure
  | transferError
deriving Repr, DecidableEq

inductive DownloadRes where
  | ok
  | err (e : DlError)
deriving Repr, DecidableEq

/-- External collaborators of one `download` invocation: the token the
accounts endpoint returns (`none` = failure), the remote tree behind the
content id, and the per-request transfer responses. -/
structure Env where
  tokenRes : Option String
  tree : RNode
  net : String → Option Nat → Resp

def jsSplitSlash (s : String) : List String :=
  (splitStr '/' [] s.toList).map String.mk

/-- The `try` body of `download`: validate the `/d/` URL shape, acquire the
token, resolve the tree into `this.filesInfo`, return early on an empty
manifest, else run the sequential download loop. -/
def downloadBody (env : Env) (rootDir url : String) (st : DState) (fs : FS) :
    DownloadRes × DState × FS :=
  let parts := jsSplitSlash url
  if 2 ≤ parts.length ∧ parts.getD (parts.length - 2) "" = "d" then
    match env.tokenRes with
    | none => (.err .authFailure, st, fs)
    | some _ =>
      let pr := parseLinksRecursively rootDir env.tree (st.recursiveFilesIndex, st.filesInfo)
      let st2 : DState := ⟨pr.1.2, pr.1.1⟩
      if pr.2 then
        if st2.filesInfo.length = 0 then (.ok, st2, fs)
        else
          let dl := downloadAll env.net rootDir (st2.filesInfo.map Prod.snd) fs
          if dl.2.1 then (.err .transferError, st2, dl.2.2)
          else (.ok, st2, dl.2.2)
      else (.err .resolutionFailure, st2, fs)
  else (.err .invalidInput, st, fs)

/-- `download` with its `finally` block: whatever the body does — return,
early return, or raise — `this.filesInfo` is reset to empty and
`this.recursiveFilesIndex` to zero before control leaves. -/
def download (env : Env) (rootDir url : String) (st : DState) (fs : FS) :
    DownloadRes × DState × FS :=
  let r := downloadBody env rootDir url st fs
  (r.1, ⟨[], 0⟩, r.2.2)

/-- A resolution that fails mid-tree: the folder's first child resolves and
is appended to the manifest before the second child's fetch fails. -/
def envResFail : Env :=
  ⟨some "tok", .folder [.file "a" "la", .bad], fun _ _ => ⟨404, none, 0, false⟩⟩

/-- Token acquisition fails (accounts endpoint not ok). -/
def envAuthFail : Env :=
  ⟨none, .folder [], fun _ _ => ⟨404, none, 0, false⟩⟩

/-- An empty remote folder: resolution succeeds with an empty manifest. -/
def envEmpty : Env :=
  ⟨some "tok", .folder [], fun _ _ => ⟨404, none, 0, false⟩⟩

/-- One downloadable 3-byte file served with status 200. -/
def envOneFile : Env :=
  ⟨some "tok", .file "a" "la", fun _ _ => ⟨200, some "3", 3, false⟩⟩

/-! ## Supporting lemmas and claim theorems -/

theorem isPref_spec : ∀ x y, isPref x y = true → y = x ++ y.drop x.length
  | [], _, _ => rfl
  | _ :: _, [], h => by simp [isPref] at h
  | a :: as, b :: bs, h => by
    simp only [isPref, Bool.and_eq_true, decide_eq_true_eq] at h
    have ih := isPref_spec as bs h.2
    simp [h.1, List.drop, ← ih]

theorem isPref_append (x t : List Char) : isPref x (x ++ t) = true := by
  induction x with
  | nil => rfl
  | cons a as ih => simp [isPref, ih]

theorem findSep_length_lt (a : Char) (sep : List Char) :
    ∀ s p r, findSep a sep s = some (p, r) → r.length < s.length := by
  intro s
  induction s with
  | nil => intro p r h; simp [findSep] at h
  | cons c cs ih =>
    intro p r h
    by_cases hp : isPref (a :: sep) (c :: cs) = true
    · simp only [findSep, if_pos hp, Option.some.injEq, Prod.mk.injEq] at h
      obtain ⟨h1, h2⟩ := h
      subst h2
      simp only [List.length_cons, List.length_drop]
      omega
    · simp only [findSep, if_neg hp] at h
      cases hf : findSep a sep cs with
      | none => rw [hf] at h; exact absurd h (by simp)
      | some pr =>
        obtain ⟨p0, r0⟩ := pr
        rw [hf] at h
        simp only [Option.some.injEq, Prod.mk.injEq] at h
        obtain ⟨h1, h2⟩ := h
        have hlen := ih p0 r0 hf
        rw [← h2]
        simp only [List.length_cons]
        omega

theorem findSep_append (a : Char) (sep : List Char) :
    ∀ s p r, findSep a sep s = some (p, r) → s = p ++ (a :: sep) ++ r := by
  intro s
  induction s with
  | nil => intro p r h; simp [findSep] at h
  | cons c cs ih =>
    intro p r h
    by_cases hp : isPref (a :: sep) (c :: cs) = true
    · simp only [findSep, if_pos hp, Option.some.injEq, Prod.mk.injEq] at h
      obtain ⟨h1, h2⟩ := h
      have hs := isPref_spec _ _ hp
      subst h1
      subst h2
      simpa [List.drop] using hs
    · simp only [findSep, if_neg hp] at h
      cases hf : findSep a sep cs with
      | none => rw [hf] at h; exact absurd h (by simp)
      | some pr =>
        obtain ⟨p0, r0⟩ := pr
        rw [hf] at h
        simp only [Option.some.injEq, Prod.mk.injEq] at h
        obtain ⟨h1, h2⟩ := h
        subst h1
        subst h2
        have := ih p0 r0 hf
        simp [this]

theorem findSep_min (a : Char) (sep : List Char) :
    ∀ s p r, findSep a sep s = some (p, r) →
      ∀ p' r', s = p' ++ (a :: sep) ++ r' → p.length ≤ p'.length := by
  intro s
  induction s with
  | nil => intro p r h; simp [findSep] at h
  | cons c cs ih =>
    intro p r h p' r' hdec
    by_cases hp : isPref (a :: sep) (c :: cs) = true
    · simp only [findSep, if_pos hp, Option.some.injEq, Prod.mk.injEq] at h
      obtain ⟨h1, _⟩ := h
      subst h1
      exact Nat.zero_le _
    · simp only [findSep, if_neg hp] at h
      cases hf : findSep a sep cs with
      | none => rw [hf] at h; exact absurd h (by simp)
      | some pr =>
        obtain ⟨p0, r0⟩ := pr
        rw [hf] at h
        simp only [Option.some.injEq, Prod.mk.injEq] at h
        obtain ⟨h1, _⟩ := h
        subst h1
        cases p' with
        | nil =>
          exfalso
          apply hp
          have : c :: cs = (a :: sep) ++ r' := by simpa using hdec
          rw [this]
          exact isPref_append _ _
        | cons c' p'' =>
          have hc : cs = p'' ++ (a :: sep) ++ r' := by
            have := congrArg List.tail hdec
            simpa using this
          have := ih p0 r0 hf p'' r' hc
          simp only [List.length_cons]
          omega

theorem findSep_none (a : Char) (sep : List Char) :
    ∀ s, findSep a sep s = none → ∀ p' r', s ≠ p' ++ (a :: sep) ++ r' := by
  intro s
  induction s with
  | nil =>
    intro _ p' r' hdec
    have := congrArg List.length hdec
    simp at this
    omega
  | cons c cs ih =>
    intro h p' r' hdec
    by_cases hp : isPref (a :: sep) (c :: cs) = true
    · simp [findSep, if_pos hp] at h
    · simp only [findSep, if_neg hp] at h
      cases hf : findSep a sep cs with
      | some pr => rw [hf] at h; obtain ⟨p0, r0⟩ := pr; exact absurd h (by simp)
      | none =>
        cases p' with
        | nil =>
          apply hp
          have : c :: cs = (a :: sep) ++ r' := by simpa using hdec
          rw [this]
          exact isPref_append _ _
        | cons c' p'' =>
          have hc : cs = p'' ++ (a :: sep) ++ r' := by
            have := congrArg List.tail hdec
            simpa using this
          exact ih hf p'' r' hc

theorem splitStrF_congr (a : Char) (sep : List Char) :
    ∀ f1 f2 s, s.length ≤ f1 → s.length ≤ f2 →
      splitStrF a sep f1 s = splitStrF a sep f2 s := by
  intro f1
  induction f1 with
  | zero =>
    intro f2 s h1 _
    have hs : s = [] := List.length_eq_zero.mp (Nat.le_zero.mp h1)
    subst hs
    cases f2 with
    | zero => rfl
    | succ n => simp [splitStrF, findSep]
  | succ n ih =>
    intro f2 s h1 h2
    cases f2 with
    | zero =>
      have hs : s = [] := List.length_eq_zero.mp (Nat.le_zero.mp h2)
      subst hs
      simp [splitStrF, findSep]
    | succ m =>
      simp only [splitStrF]
      cases hf : findSep a sep s with
      | none => rfl
      | some pr =>
        obtain ⟨p, r⟩ := pr
        have hlt := findSep_length_lt a sep s p r hf
        have : r.length ≤ n := by omega
        have : splitStrF a sep n r = splitStrF a sep m r := ih m r this (by omega)
        simp [this]

/-- One-step unfolding of `splitStr`. -/
theorem splitStr_eq (a : Char) (sep : List Char) (s : List Char) :
    splitStr a sep s =
      match findSep a sep s with
      | none => [s]
      | some (p, r) => p :: splitStr a sep r := by
  unfold splitStr
  cases hl : s.length with
  | zero =>
    have hs : s = [] := List.length_eq_zero.mp hl
    subst hs
    simp [splitStrF, findSep]
  | succ n =>
    simp only [splitStrF]
    cases hf : findSep a sep s with
    | none => simp [hf]
    | some pr =>
      obtain ⟨p, r⟩ := pr
      have hlt := findSep_length_lt a sep s p r hf
      have hcg : splitStrF a sep n r = splitStrF a sep r.length r :=
        splitStrF_congr a sep n r.length r (by omega) (by omega)
      simp [hf, hcg]

theorem splitStr_ne_nil (a : Char) (sep : List Char) (s : List Char) :
    splitStr a sep s ≠ [] := by
  rw [splitStr_eq]
  cases h : findSep a sep s with
  | none => simp
  | some pr => obtain ⟨p, r⟩ := pr; simp

theorem joinChars_cons (sep x : List Char) (l : List (List Char)) (h : l ≠ []) :
    joinChars sep (x :: l) = x ++ sep ++ joinChars sep l := by
  cases l with
  | nil => exact absurd rfl h
  | cons y r => rfl

theorem joinChars_splitStr (a : Char) (sep : List Char) :
    ∀ s, joinChars (a :: sep) (splitStr a sep s) = s
  | s => by
    rw [splitStr_eq]
    cases h : findSep a sep s with
    | none => simp [joinChars]
    | some pr =>
      obtain ⟨p, r⟩ := pr
      have hlt := findSep_length_lt a sep s p r h
      have ih := joinChars_splitStr a sep r
      have hdec := findSep_append a sep s p r h
      show joinChars (a :: sep) (p :: splitStr a sep r) = s
      rw [joinChars_cons _ _ _ (splitStr_ne_nil a sep r), ih]
      simp [hdec]
termination_by s => s.length

example : parseIntJS "1234" = some 1234 := by decide
example : parseIntJS "" = none := by decide
example : parseIntJS "12ab" = some 12 := by decide
example : parseIntJS "0x1A" = some 26 := by decide
example : lastComponent "100-199/5000" = "5000" := by decide
example : lastComponent "5000" = "5000" := by decide
example : lastComponent "5/" = "" := by decide

theorem indexedFrom_append (rootDir : String) (i : Nat) (l1 l2 : List (String × String)) :
    indexedFrom rootDir i (l1 ++ l2) =
      indexedFrom rootDir i l1 ++ indexedFrom rootDir (i + l1.length) l2 := by
  induction l1 generalizing i with
  | nil => simp [indexedFrom]
  | cons x r ih =>
    obtain ⟨n, l⟩ := x
    simp only [List.cons_append, indexedFrom, List.append_eq]
    rw [ih]
    have h2 : i + 1 + r.length = i + (r.length + 1) := by omega
    simp [h2]

theorem indexedFrom_keys (rootDir : String) :
    ∀ L i, (indexedFrom rootDir i L).map Prod.fst =
      (List.range L.length).map (fun k => i + k + 1)
  | [], _ => by simp [indexedFrom]
  | (n, l) :: r, i => by
    have ih := indexedFrom_keys rootDir r (i + 1)
    simp only [indexedFrom, List.map_cons, ih, List.length_cons, List.range_succ_eq_map,
      List.map_map]
    refine List.cons_eq_cons.mpr ⟨by omega, ?_⟩
    apply List.map_congr_left
    intro k _
    simp [Function.comp]
    omega

mutual
/-- Characterisation of a successful traversal: starting from counter `i` and
manifest `m`, the resolver appends exactly the entries `indexedFrom i
(leaves t)` and advances the counter by the number of leaves. -/
theorem parse_spec (rootDir : String) :
    ∀ t i m, noBad t = true →
      parseLinksRecursively rootDir t (i, m) =
        ((i + (leaves t).length, m ++ indexedFrom rootDir i (leaves t)), true)
  | .bad, i, m, h => by simp [noBad] at h
  | .file n l, i, m, _ => by
    simp [parseLinksRecursively, appendEntry, leaves, indexedFrom]
  | .folder cs, i, m, h => by
    have hcs : noBadList cs = true := by simpa [noBad] using h
    have := parseChildren_spec rootDir cs i m hcs
    simpa [parseLinksRecursively, leaves] using this
theorem parseChildren_spec (rootDir : String) :
    ∀ cs i m, noBadList cs = true →
      parseChildren rootDir cs (i, m) =
        ((i + (leavesList cs).length, m ++ indexedFrom rootDir i (leavesList cs)), true)
  | [], i, m, _ => by simp [parseChildren, leavesList, indexedFrom]
  | c :: cs, i, m, h => by
    have hc : noBad c = true ∧ noBadList cs = true := by
      simpa [noBadList, Bool.and_eq_true] using h
    cases c with
    | bad => simp [noBad] at hc
    | file n l =>
      have ih := parseChildren_spec rootDir cs (i + 1) (m ++ [(i + 1, ⟨rootDir, n, l⟩)]) hc.2
      simp only [parseChildren, appendEntry]
      rw [ih]
      simp only [leavesList, leaves, List.singleton_append, List.length_cons, indexedFrom,
        Prod.mk.injEq, List.append_assoc]
      exact ⟨⟨by omega, by simp⟩, trivial⟩
    | folder gs =>
      have h1 := parse_spec rootDir (.folder gs) i m hc.1
      have ih := parseChildren_spec rootDir cs (i + (leaves (.folder gs)).length)
        (m ++ indexedFrom rootDir i (leaves (.folder gs))) hc.2
      simp only [parseChildren]
      rw [h1]
      simp only []
      rw [ih]
      simp only [leavesList, Prod.mk.injEq, indexedFrom_append, List.length_append,
        List.append_assoc]
      exact ⟨⟨by omega, trivial⟩, trivial⟩
end

theorem lookupFS_set_self (fs : FS) (p : String) (n : Nat) :
    lookupFS (setFS fs p n) p = some n := by
  simp [setFS, lookupFS]

theorem lookupFS_remove_ne (fs : FS) (p q : String) (h : q ≠ p) :
    lookupFS (removeFS fs p) q = lookupFS fs q := by
  induction fs with
  | nil => rfl
  | cons e r ih =>
    obtain ⟨a, b⟩ := e
    by_cases hap : a = p
    · subst hap
      have h1 : removeFS ((a, b) :: r) a = removeFS r a := by simp [removeFS]
      rw [h1, ih]
      simp [lookupFS, Ne.symm h]
    · have h1 : removeFS ((a, b) :: r) p = (a, b) :: removeFS r p := by
        simp [removeFS, hap]
      rw [h1]
      by_cases haq : a = q
      · subst haq
        simp [lookupFS]
      · simp [lookupFS, haq, ih]

theorem lookupFS_set_ne (fs : FS) (p q : String) (n : Nat) (h : q ≠ p) :
    lookupFS (setFS fs p n) q = lookupFS fs q := by
  simp [setFS, lookupFS, Ne.symm h, lookupFS_remove_ne fs p q h]

theorem lookupFS_remove_self (fs : FS) (p : String) :
    lookupFS (removeFS fs p) p = none := by
  induction fs with
  | nil => rfl
  | cons e r ih =>
    obtain ⟨a, b⟩ := e
    by_cases hap : a = p
    · subst hap; simpa [removeFS, lookupFS] using ih
    · simpa [removeFS, lookupFS, hap] using ih

theorem self_ne_self_append_part (s : String) : s ≠ s ++ ".part" := by
  intro h
  have := congrArg String.length h
  simp [String.length_append] at this
  exact absurd this (by decide)

set_option maxRecDepth 2000 in
theorem sha256K_spec : sha256K = primes64.map (fun p => icbrt (p * 2 ^ 96) % 4294967296) := by
  decide

set_option maxRecDepth 2000 in
theorem sha256H0_spec :
    sha256H0 = (primes64.take 8).map (fun p => isqrt (p * 2 ^ 64) % 4294967296) := by
  decide

example :
    sha256Hex "abc" = "ba7816bf8f01cfea414140de5dae2223b00361a396177a9cb410ff61f20015ad" := by
  decide

/-! ## Claim theorems -/

/-- C1: the claim says a byte-range header is carried iff a partial file is
present with non-zero size, a zero-size partial file getting a full,
range-free request.  The code keys the header on existence alone
(`existsSync(tmpFile)`), so with a zero-size partial file on disk the issued
request still carries a range header at offset 0 — and since the code's own
validation demands status 200 whenever `partSize === 0`, a server honoring
that range (status 206) makes the entry fail.  This theorem evaluates the
embedded `downloadContent` at exactly that input: a zero-size
`dl/f.bin.part` and a range-honoring server. -/
theorem c1_zero_size_part_file_bug :
    (downloadContent
        (fun _ r =>
          match r with
          | some _ => ⟨206, some "10", 10, false⟩
          | none => ⟨200, some "10", 10, false⟩)
        "dl" ⟨"dl", "f.bin", "L"⟩ [("dl/f.bin.part", 0)]).req =
      some ("L", some 0) ∧
    (downloadContent
        (fun _ r =>
          match r with
          | some _ => ⟨206, some "10", 10, false⟩
          | none => ⟨200, some "10", 10, false⟩)
        "dl" ⟨"dl", "f.bin", "L"⟩ [("dl/f.bin.part", 0)]).res =
      .outcome .Failed := by
  exact ⟨by decide, by decide⟩

/-- C5: a zero-offset request answered by a status other than 200, a
non-zero-offset request answered by a status other than 206, or any
non-success response, makes `downloadContent` return a `Failed` outcome for
that entry only — without raising and without touching the file system —
and the manifest loop still processes every remaining entry of the batch. -/
theorem c5_status_validation_isolated
    (net : String → Option Nat → Resp) (rootDir : String) (fi : FileInfo)
    (fs : FS) (rest : List FileInfo) (rng : Option Nat) (resp : Resp)
    (hskip : (lookupFS fs (joinPath rootDir fi.filename)).getD 0 = 0)
    (hrng : rng = lookupFS fs (joinPath rootDir fi.filename ++ ".part"))
    (hresp : resp = net fi.link rng)
    (hbad : ¬(200 ≤ resp.status ∧ resp.status < 300) ∨
      (rng.getD 0 = 0 ∧ resp.status ≠ 200) ∨ (rng.getD 0 ≠ 0 ∧ resp.status ≠ 206)) :
    downloadContent net rootDir fi fs = ⟨.outcome .Failed, fs, some (fi.link, rng)⟩ ∧
    downloadAll net rootDir (fi :: rest) fs =
      ((.Failed, some (fi.link, rng)) :: (downloadAll net rootDir rest fs).1,
        (downloadAll net rootDir rest fs).2.1,
        (downloadAll net rootDir rest fs).2.2) := by
  subst hrng hresp
  have h1 : downloadContent net rootDir fi fs =
      ⟨.outcome .Failed, fs,
        some (fi.link, lookupFS fs (joinPath rootDir fi.filename ++ ".part"))⟩ := by
    simp only [downloadContent]
    rw [hskip]
    rw [if_neg (by omega)]
    rw [if_pos hbad]
  refine ⟨h1, ?_⟩
  rcases hres : downloadAll net rootDir rest fs with ⟨os, ab, fs2⟩
  simp [downloadAll, h1, hres]

/-- C5 witness: a 404 response on a fresh request fails the first entry and
the second entry of the batch is still processed. -/
theorem c5_status_validation_isolated_witness :
    downloadContent (fun _ _ => ⟨404, none, 0, false⟩) "dl" ⟨"dl", "a", "L"⟩ [] =
      ⟨.outcome .Failed, [], some ("L", none)⟩ ∧
    downloadAll (fun _ _ => ⟨404, none, 0, false⟩) "dl"
        [⟨"dl", "a", "L"⟩, ⟨"dl", "b", "M"⟩] [] =
      ((.Failed, some ("L", none)) ::
          (downloadAll (fun _ _ => ⟨404, none, 0, false⟩) "dl" [⟨"dl", "b", "M"⟩] []).1,
        (downloadAll (fun _ _ => ⟨404, none, 0, false⟩) "dl" [⟨"dl", "b", "M"⟩] []).2.1,
        (downloadAll (fun _ _ => ⟨404, none, 0, false⟩) "dl" [⟨"dl", "b", "M"⟩] []).2.2) :=
  c5_status_validation_isolated (fun _ _ => ⟨404, none, 0, false⟩) "dl" ⟨"dl", "a", "L"⟩
    [] [⟨"dl", "b", "M"⟩] none ⟨404, none, 0, false⟩
    (by decide) (by decide) rfl (by decide)

/-- After the skip check fails and status validation passes,
`downloadContent` is the size-determination/stream/verify tail of the code:
this unfolding is shared by the total-size and size-mismatch analyses. -/
theorem downloadContent_validated
    (net : String → Option Nat → Resp) (rootDir : String) (fi : FileInfo)
    (fs : FS) (rng : Option Nat) (resp : Resp)
    (hskip : (lookupFS fs (joinPath rootDir fi.filename)).getD 0 = 0)
    (hrng : rng = lookupFS fs (joinPath rootDir fi.filename ++ ".part"))
    (hresp : resp = net fi.link rng)
    (hval : ¬(¬(200 ≤ resp.status ∧ resp.status < 300) ∨
      (rng.getD 0 = 0 ∧ resp.status ≠ 200) ∨ (rng.getD 0 ≠ 0 ∧ resp.status ≠ 206))) :
    downloadContent net rootDir fi fs =
      match totalSizeRaw (rng.getD 0) resp.contentLength with
      | none => ⟨.outcome .Failed, fs, some (fi.link, rng)⟩
      | some ts =>
        if ts = "" then ⟨.outcome .Failed, fs, some (fi.link, rng)⟩
        else
          if resp.bodyErr then
            ⟨.raised,
              setFS fs (joinPath rootDir fi.filename ++ ".part") (rng.getD 0 + resp.bodyLen),
              some (fi.link, rng)⟩
          else if parseIntJS ts = some ((rng.getD 0 + resp.bodyLen : Nat) : Int) then
            ⟨.outcome .Completed,
              removeFS
                (setFS
                  (setFS fs (joinPath rootDir fi.filename ++ ".part")
                    (rng.getD 0 + resp.bodyLen))
                  (joinPath rootDir fi.filename) (rng.getD 0 + resp.bodyLen))
                (joinPath rootDir fi.filename ++ ".part"),
              some (fi.link, rng)⟩
          else
            ⟨.outcome .Failed,
              setFS fs (joinPath rootDir fi.filename ++ ".part") (rng.getD 0 + resp.bodyLen),
              some (fi.link, rng)⟩ := by
  subst hrng hresp
  simp only [downloadContent]
  rw [hskip, if_neg (by omega), if_neg hval]

/-- C2: with the skip check failed, validation passed and the stream
completing without error, the expected total is determined exactly as the
claim states.  Fresh request (zero partial size): the declared
content-length header is the total — absent or empty gives `Failed`
(file-system untouched), and otherwise completion is decided by comparing
the on-disk size against `parseInt` of that very header value.  Resumed
request: the total is the value after the final size-separator `/` of the
content-range-style header value the code reads — an absent header, an
empty value, or an empty after-separator part gives `Failed`, and otherwise
completion is decided against `parseInt` of that after-separator value. -/
theorem c2_total_size_determination
    (net : String → Option Nat → Resp) (rootDir : String) (fi : FileInfo)
    (fs : FS) (rng : Option Nat) (resp : Resp)
    (hskip : (lookupFS fs (joinPath rootDir fi.filename)).getD 0 = 0)
    (hrng : rng = lookupFS fs (joinPath rootDir fi.filename ++ ".part"))
    (hresp : resp = net fi.link rng)
    (hval : ¬(¬(200 ≤ resp.status ∧ resp.status < 300) ∨
      (rng.getD 0 = 0 ∧ resp.status ≠ 200) ∨ (rng.getD 0 ≠ 0 ∧ resp.status ≠ 206)))
    (hnoerr : resp.bodyErr = false) :
    (rng.getD 0 = 0 → (resp.contentLength = none ∨ resp.contentLength = some "") →
      downloadContent net rootDir fi fs = ⟨.outcome .Failed, fs, some (fi.link, rng)⟩) ∧
    (∀ s, rng.getD 0 = 0 → resp.contentLength = some s → s ≠ "" →
      ((downloadContent net rootDir fi fs).res = .outcome .Completed ↔
        parseIntJS s = some ((rng.getD 0 + resp.bodyLen : Nat) : Int))) ∧
    (rng.getD 0 ≠ 0 → resp.contentLength = none →
      downloadContent net rootDir fi fs = ⟨.outcome .Failed, fs, some (fi.link, rng)⟩) ∧
    (∀ s, rng.getD 0 ≠ 0 → resp.contentLength = some s →
      (s = "" ∨ lastComponent s = "") →
      downloadContent net rootDir fi fs = ⟨.outcome .Failed, fs, some (fi.link, rng)⟩) ∧
    (∀ s, rng.getD 0 ≠ 0 → resp.contentLength = some s → s ≠ "" → lastComponent s ≠ "" →
      ((downloadContent net rootDir fi fs).res = .outcome .Completed ↔
        parseIntJS (lastComponent s) = some ((rng.getD 0 + resp.bodyLen : Nat) : Int))) := by
  have hu := downloadContent_validated net rootDir fi fs rng resp hskip hrng hresp hval
  refine ⟨?_, ?_, ?_, ?_, ?_⟩
  · intro hps hcl
    rw [hu]
    rcases hcl with hcl | hcl
    <;> simp [totalSizeRaw, hps, hcl]
  · intro s hps hcl hs
    rw [hu, hps, hcl]
    simp only [totalSizeRaw, eq_self_iff_true, if_true, if_neg hs, hnoerr,
      Bool.false_eq_true, if_false]
    by_cases hp : parseIntJS s = some ((0 + resp.bodyLen : Nat) : Int)
    · rw [if_pos hp]
      exact iff_of_true rfl hp
    · rw [if_neg hp]
      exact iff_of_false (by simp) hp
  · intro hps hcl
    rw [hu]
    simp [totalSizeRaw, hps, hcl]
  · intro s hps hcl hbad
    rw [hu]
    rcases hbad with hs | hs
    · simp [totalSizeRaw, hps, hcl, hs]
    · by_cases hse : s = ""
      · simp [totalSizeRaw, hps, hcl, hse]
      · simp [totalSizeRaw, hps, hcl, hse, hs]
  · intro s hps hcl hs hlc
    rw [hu, hcl]
    simp only [totalSizeRaw, if_neg hps, if_neg hs, if_neg hlc, hnoerr,
      Bool.false_eq_true, if_false]
    by_cases hp : parseIntJS (lastComponent s) = some ((rng.getD 0 + resp.bodyLen : Nat) : Int)
    · rw [if_pos hp]
      exact iff_of_true rfl hp
    · rw [if_neg hp]
      exact iff_of_false (by simp) hp

/-- C2 witness: a resumed transfer (partial file of size 5) answered with
206 and a content-range-style value `bytes 5-9/10` delivers 5 more bytes and
completes, because the total parsed from after the separator is 10 = 5 + 5. -/
theorem c2_total_size_determination_witness :
    (downloadContent (fun _ _ => ⟨206, some "bytes 5-9/10", 5, false⟩) "dl"
        ⟨"dl", "a.bin", "L"⟩ [("dl/a.bin.part", 5)]).res = .outcome .Completed := by
  have h := (c2_total_size_determination (fun _ _ => ⟨206, some "bytes 5-9/10", 5, false⟩)
    "dl" ⟨"dl", "a.bin", "L"⟩ [("dl/a.bin.part", 5)] (some 5) ⟨206, some "bytes 5-9/10", 5, false⟩
    (by decide) (by decide) rfl (by decide) rfl).2.2.2.2
    "bytes 5-9/10" (by decide) rfl (by decide) (by decide)
  rw [h]
  decide

/-- C3: after streaming completes, the partial file's on-disk size is
compared with the declared total.  A mismatch returns `Failed` without
raising, the final path is left exactly as it was (no promotion), and the
partial file stays on disk holding the streamed bytes; exact equality
promotes the partial file to the final path (which then holds the full
size), deletes the partial file and completes the entry. -/
theorem c3_size_mismatch_policy
    (net : String → Option Nat → Resp) (rootDir : String) (fi : FileInfo)
    (fs : FS) (rng : Option Nat) (resp : Resp) (ts : String)
    (hskip : (lookupFS fs (joinPath rootDir fi.filename)).getD 0 = 0)
    (hrng : rng = lookupFS fs (joinPath rootDir fi.filename ++ ".part"))
    (hresp : resp = net fi.link rng)
    (hval : ¬(¬(200 ≤ resp.status ∧ resp.status < 300) ∨
      (rng.getD 0 = 0 ∧ resp.status ≠ 200) ∨ (rng.getD 0 ≠ 0 ∧ resp.status ≠ 206)))
    (hts : totalSizeRaw (rng.getD 0) resp.contentLength = some ts)
    (hts2 : ts ≠ "")
    (hnoerr : resp.bodyErr = false) :
    (parseIntJS ts ≠ some ((rng.getD 0 + resp.bodyLen : Nat) : Int) →
      downloadContent net rootDir fi fs =
        ⟨.outcome .Failed,
          setFS fs (joinPath rootDir fi.filename ++ ".part") (rng.getD 0 + resp.bodyLen),
          some (fi.link, rng)⟩ ∧
      lookupFS (downloadContent net rootDir fi fs).fs (joinPath rootDir fi.filename) =
        lookupFS fs (joinPath rootDir fi.filename) ∧
      lookupFS (downloadContent net rootDir fi fs).fs
          (joinPath rootDir fi.filename ++ ".part") =
        some (rng.getD 0 + resp.bodyLen)) ∧
    (parseIntJS ts = some ((rng.getD 0 + resp.bodyLen : Nat) : Int) →
      (downloadContent net rootDir fi fs).res = .outcome .Completed ∧
      lookupFS (downloadContent net rootDir fi fs).fs (joinPath rootDir fi.filename) =
        some (rng.getD 0 + resp.bodyLen) ∧
      lookupFS (downloadContent net rootDir fi fs).fs
          (joinPath rootDir fi.filename ++ ".part") = none) := by
  have hu := downloadContent_validated net rootDir fi fs rng resp hskip hrng hresp hval
  have hne := self_ne_self_append_part (joinPath rootDir fi.filename)
  constructor
  · intro hmis
    have hdc : downloadContent net rootDir fi fs =
        ⟨.outcome .Failed,
          setFS fs (joinPath rootDir fi.filename ++ ".part") (rng.getD 0 + resp.bodyLen),
          some (fi.link, rng)⟩ := by
      rw [hu, hts]
      simp only [if_neg hts2, hnoerr, Bool.false_eq_true, if_false, if_neg hmis]
    refine ⟨hdc, ?_, ?_⟩
    · rw [hdc]
      exact lookupFS_set_ne fs _ _ _ hne
    · rw [hdc]
      exact lookupFS_set_self fs _ _
  · intro hmat
    have hdc : downloadContent net rootDir fi fs =
        ⟨.outcome .Completed,
          removeFS
            (setFS
              (setFS fs (joinPath rootDir fi.filename ++ ".part") (rng.getD 0 + resp.bodyLen))
              (joinPath rootDir fi.filename) (rng.getD 0 + resp.bodyLen))
            (joinPath rootDir fi.filename ++ ".part"),
          some (fi.link, rng)⟩ := by
      rw [hu, hts]
      simp only [if_neg hts2, hnoerr, Bool.false_eq_true, if_false, if_pos hmat]
    refine ⟨by rw [hdc], ?_, ?_⟩
    · rw [hdc]
      show lookupFS (removeFS _ _) _ = _
      rw [lookupFS_remove_ne _ _ _ hne]
      exact lookupFS_set_self _ _ _
    · rw [hdc]
      exact lookupFS_remove_self _ _

/-- C3 witness: a fresh transfer declaring 10 bytes but delivering only 4
fails and keeps `dl/a.bin.part` at size 4 with no `dl/a.bin`; the same
transfer delivering all 10 bytes completes, promoting `dl/a.bin` to size 10
and deleting the partial file. -/
theorem c3_size_mismatch_policy_witness :
    (downloadContent (fun _ _ => ⟨200, some "10", 4, false⟩) "dl"
        ⟨"dl", "a.bin", "L"⟩ [] =
      ⟨.outcome .Failed, setFS [] "dl/a.bin.part" 4, some ("L", none)⟩ ∧
     lookupFS (downloadContent (fun _ _ => ⟨200, some "10", 4, false⟩) "dl"
        ⟨"dl", "a.bin", "L"⟩ []).fs "dl/a.bin" = none) ∧
    ((downloadContent (fun _ _ => ⟨200, some "10", 10, false⟩) "dl"
        ⟨"dl", "a.bin", "L"⟩ []).res = .outcome .Completed ∧
     lookupFS (downloadContent (fun _ _ => ⟨200, some "10", 10, false⟩) "dl"
        ⟨"dl", "a.bin", "L"⟩ []).fs "dl/a.bin" = some 10) := by
  have h1 := (c3_size_mismatch_policy (fun _ _ => ⟨200, some "10", 4, false⟩) "dl"
    ⟨"dl", "a.bin", "L"⟩ [] none ⟨200, some "10", 4, false⟩ "10"
    (by decide) (by decide) rfl (by decide) (by decide) (by decide) rfl).1 (by decide)
  have h2 := (c3_size_mismatch_policy (fun _ _ => ⟨200, some "10", 10, false⟩) "dl"
    ⟨"dl", "a.bin", "L"⟩ [] none ⟨200, some "10", 10, false⟩ "10"
    (by decide) (by decide) rfl (by decide) (by decide) (by decide) rfl).2 (by decide)
  refine ⟨⟨h1.1, ?_⟩, h2.1, ?_⟩
  · have := h1.2.1
    simpa using this
  · have := h2.2.1
    simpa using this

/-- C6 (amended): a manifest entry whose final path already holds a file of
non-zero size is `Skipped` with no network activity and no file-system
change; consequently a whole batch run started from a state in which every
entry's final path holds a non-zero-size file — as after a first run that
completed every entry with positive total size and removed none of them —
yields `Skipped` for every entry, again with no network activity and no
file-system change. -/
theorem c6_skip_and_second_run (net : String → Option Nat → Resp) (rootDir : String) :
    (∀ fi fs n, lookupFS fs (joinPath rootDir fi.filename) = some n → 0 < n →
      downloadContent net rootDir fi fs = ⟨.outcome .Skipped, fs, none⟩) ∧
    (∀ entries fs,
      (∀ fi ∈ entries, ∃ n, lookupFS fs (joinPath rootDir fi.filename) = some n ∧ 0 < n) →
      downloadAll net rootDir entries fs =
        (entries.map (fun _ => (Outcome.Skipped, (none : Option (String × Option Nat)))),
          false, fs)) := by
  have hA : ∀ fi fs n, lookupFS fs (joinPath rootDir fi.filename) = some n → 0 < n →
      downloadContent net rootDir fi fs = ⟨.outcome .Skipped, fs, none⟩ := by
    intro fi fs n hl hn
    simp only [downloadContent]
    rw [hl]
    simp only [Option.getD_some]
    rw [if_pos hn]
  refine ⟨hA, ?_⟩
  intro entries
  induction entries with
  | nil => intro fs _; simp [downloadAll]
  | cons fi rest ih =>
    intro fs hall
    obtain ⟨n, hl, hn⟩ := hall fi (by simp)
    have h1 := hA fi fs n hl hn
    have h2 := ih fs (fun g hg => hall g (by simp [hg]))
    simp only [downloadAll, h1, h2, List.map_cons]

/-- C6 witness: with `dl/a.bin` already on disk with size 7, the entry is
skipped with no request issued, and a batch of two such entries is skipped
entrywise with the file system unchanged. -/
theorem c6_skip_and_second_run_witness :
    downloadContent (fun _ _ => ⟨404, none, 0, false⟩) "dl" ⟨"dl", "a.bin", "L"⟩
        [("dl/a.bin", 7), ("dl/b.bin", 3)] =
      ⟨.outcome .Skipped, [("dl/a.bin", 7), ("dl/b.bin", 3)], none⟩ ∧
    downloadAll (fun _ _ => ⟨404, none, 0, false⟩) "dl"
        [⟨"dl", "a.bin", "L"⟩, ⟨"dl", "b.bin", "M"⟩] [("dl/a.bin", 7), ("dl/b.bin", 3)] =
      ([(Outcome.Skipped, none), (Outcome.Skipped, none)], false,
        [("dl/a.bin", 7), ("dl/b.bin", 3)]) := by
  have h := c6_skip_and_second_run (fun _ _ => ⟨404, none, 0, false⟩) "dl"
  refine ⟨h.1 ⟨"dl", "a.bin", "L"⟩ [("dl/a.bin", 7), ("dl/b.bin", 3)] 7 (by decide) (by decide),
    ?_⟩
  have h2 := h.2 [⟨"dl", "a.bin", "L"⟩, ⟨"dl", "b.bin", "M"⟩] [("dl/a.bin", 7), ("dl/b.bin", 3)]
    (by intro fi hfi; fin_cases hfi
        · exact ⟨7, by decide, by decide⟩
        · exact ⟨3, by decide, by decide⟩)
  simpa using h2

/-- C6 counterexample to the claim as stated: with no network changes, an
entry whose response status is 404 fails on the first run and — since the
final path still does not exist — fails again rather than being `Skipped`
on the second run of the same pipeline. -/
theorem c6_second_run_counterexample :
    (downloadAll (fun _ _ => ⟨404, none, 0, false⟩) "dl" [⟨"dl", "a.bin", "L"⟩]
        (downloadAll (fun _ _ => ⟨404, none, 0, false⟩) "dl" [⟨"dl", "a.bin", "L"⟩] []).2.2).1 ≠
      [(Outcome.Skipped, none)] := by
  decide

/-- C4: for every remote tree whose node fetches all succeed, the resolver
appends exactly one manifest entry per file leaf — `n` leaves give exactly
`n` new entries — iterating children in the order received and recursing
depth-first, with keys assigned as consecutive increasing integers in
traversal order; a non-folder top-level content yields exactly one entry. -/
theorem c4_traversal_manifest (rootDir : String) :
    (∀ t i m, noBad t = true →
      (parseLinksRecursively rootDir t (i, m)).1.2 = m ++ indexedFrom rootDir i (leaves t) ∧
      (parseLinksRecursively rootDir t (i, m)).1.1 = i + (leaves t).length ∧
      ((parseLinksRecursively rootDir t (i, m)).1.2).length = m.length + (leaves t).length ∧
      (indexedFrom rootDir i (leaves t)).map Prod.fst =
        (List.range (leaves t).length).map (fun k => i + k + 1) ∧
      (parseLinksRecursively rootDir t (i, m)).2 = true) ∧
    (∀ n l i m, parseLinksRecursively rootDir (.file n l) (i, m) =
      ((i + 1, m ++ [(i + 1, ⟨rootDir, n, l⟩)]), true)) := by
  constructor
  · intro t i m h
    have hs := parse_spec rootDir t i m h
    refine ⟨by rw [hs], by rw [hs], ?_, indexedFrom_keys rootDir (leaves t) i, by rw [hs]⟩
    rw [hs]
    simp only [List.length_append]
    have : ∀ L j, (indexedFrom rootDir j L).length = L.length := by
      intro L
      induction L with
      | nil => intro j; simp [indexedFrom]
      | cons x r ih =>
        intro j
        obtain ⟨a, b⟩ := x
        simp [indexedFrom, ih]
    rw [this]
  · intro n l i m
    simp [parseLinksRecursively, appendEntry]

/-- C4 witness: a folder holding a file, a sub-folder with one file, and a
second file resolves to exactly three entries with keys 1, 2, 3 in
depth-first traversal order. -/
theorem c4_traversal_manifest_witness :
    (parseLinksRecursively "dl"
        (.folder [.file "a" "la", .folder [.file "c" "lc"], .file "b" "lb"]) (0, [])).1.2 =
      [(1, ⟨"dl", "a", "la"⟩), (2, ⟨"dl", "c", "lc"⟩), (3, ⟨"dl", "b", "lb"⟩)] := by
  have h := (c4_traversal_manifest "dl").1
    (.folder [.file "a" "la", .folder [.file "c" "lc"], .file "b" "lb"]) 0 [] (by decide)
  rw [h.1]
  decide

/-- C7: `parseArtistAlbum` splits on the first occurrence of the `" - "`
separator — the artist is the (trimmed) prefix before it and the album is
everything after it (equal to the remaining segments re-joined with the
separator when it occurs more than once), so `"A - B - C"` gives artist
`"A"` and album `"B - C"`; a name with no separator occurrence (fewer than
two segments) is a classification failure for that unit only, and the
organizer's loop still processes sibling units. -/
theorem c7_artist_album_parsing :
    (∀ s p r, findSep ' ' ['-', ' '] s.toList = some (p, r) →
      parseArtistAlbum s = some (String.mk (trimChars p), String.mk (trimChars r)) ∧
      s.toList = p ++ [' ', '-', ' '] ++ r ∧
      (∀ p' r', s.toList = p' ++ [' ', '-', ' '] ++ r' → p.length ≤ p'.length)) ∧
    (∀ s, findSep ' ' ['-', ' '] s.toList = none →
      parseArtistAlbum s = none ∧ ∀ p' r', s.toList ≠ p' ++ [' ', '-', ' '] ++ r') ∧
    parseArtistAlbum "A - B - C" = some ("A", "B - C") ∧
    parseArtistAlbum "Pink Floyd - The Wall" = some ("Pink Floyd", "The Wall") ∧
    parseArtistAlbum "NoSeparatorHere" = none ∧
    organizeMusicFolder "music" true
        [("Pink Floyd - The Wall", true), ("NoSeparatorHere", true), ("A - B - C", true)]
        "dl/x.zip" ⟨true, false, [], []⟩ =
      ⟨false, false, [("Pink Floyd", "The Wall"), ("A", "B - C")], ["NoSeparatorHere"]⟩ := by
  refine ⟨?_, ?_, by decide, by decide, by decide, by decide⟩
  · intro s p r h
    refine ⟨?_, findSep_append ' ' ['-', ' '] s.toList p r h,
      findSep_min ' ' ['-', ' '] s.toList p r h⟩
    have hne := splitStr_ne_nil ' ' ['-', ' '] r
    have hlen : 1 ≤ (splitStr ' ' ['-', ' '] r).length := List.length_pos.mpr hne
    have hsp : splitStr ' ' ['-', ' '] s.toList = p :: splitStr ' ' ['-', ' '] r := by
      rw [splitStr_eq, h]
    simp only [parseArtistAlbum, hsp, List.length_cons, List.headD_cons, List.drop_one,
      List.tail_cons]
    rw [if_neg (by omega)]
    rw [joinChars_splitStr]
  · intro s h
    have hsp : splitStr ' ' ['-', ' '] s.toList = [s.toList] := by
      rw [splitStr_eq, h]
    refine ⟨?_, findSep_none ' ' ['-', ' '] s.toList h⟩
    simp only [parseArtistAlbum, hsp]
    simp

/-- C7 witness: `"X - Y"` decomposes at its only separator occurrence into
artist `"X"` and album `"Y"`. -/
theorem c7_artist_album_parsing_witness :
    parseArtistAlbum "X - Y" = some ("X", "Y") := by
  have h := c7_artist_album_parsing.1 "X - Y" ['X'] ['Y'] (by decide)
  rw [h.1]
  decide

/-- C8: `organizeMusicFolder` is a no-op when no music-library root is
configured; otherwise, for a `.zip` source whose extraction succeeds, the
original archive file and the temporary extraction directory are removed for
every possible item list — in particular also when some child directories
fail to classify — while an extraction failure aborts before that cleanup,
leaving the archive in place (and the already-created temporary directory
behind). -/
theorem c8_organize_cleanup (musicDir : String) (extractOk : Bool)
    (items : List (String × Bool)) (sourcePath : String) (st : MusicState) :
    (musicDir = "" → organizeMusicFolder musicDir extractOk items sourcePath st = st) ∧
    (musicDir ≠ "" → jsEndsWith sourcePath ".zip" = true → extractOk = true →
      (organizeMusicFolder musicDir extractOk items sourcePath st).archivePresent = false ∧
      (organizeMusicFolder musicDir extractOk items sourcePath st).tempPresent = false) ∧
    (musicDir ≠ "" → jsEndsWith sourcePath ".zip" = true → extractOk = false →
      (organizeMusicFolder musicDir extractOk items sourcePath st).archivePresent =
        st.archivePresent ∧
      (organizeMusicFolder musicDir extractOk items sourcePath st).tempPresent = true) := by
  refine ⟨?_, ?_, ?_⟩
  · intro h
    simp [organizeMusicFolder, h]
  · intro h1 h2 h3
    subst h3
    simp [organizeMusicFolder, h1, h2]
  · intro h1 h2 h3
    subst h3
    simp [organizeMusicFolder, h1, h2]

/-- C8 witness: with a configured music root and a successfully extracted
`dl/x.zip` whose children include an unclassifiable directory, both cleanup
flags end false, while a failed extraction leaves the archive present. -/
theorem c8_organize_cleanup_witness :
    (organizeMusicFolder "music" true [("Artist1 - Album1", true), ("BadName", true)]
        "dl/x.zip" ⟨true, false, [], []⟩).archivePresent = false ∧
    (organizeMusicFolder "music" true [("Artist1 - Album1", true), ("BadName", true)]
        "dl/x.zip" ⟨true, false, [], []⟩).tempPresent = false ∧
    (organizeMusicFolder "music" false [] "dl/x.zip" ⟨true, false, [], []⟩).archivePresent =
      true := by
  have h1 := (c8_organize_cleanup "music" true [("Artist1 - Album1", true), ("BadName", true)]
    "dl/x.zip" ⟨true, false, [], []⟩).2.1 (by decide) (by decide) rfl
  have h2 := (c8_organize_cleanup "music" false [] "dl/x.zip" ⟨true, false, [], []⟩).2.2
    (by decide) (by decide) rfl
  exact ⟨h1.1, h1.2, h2.1⟩

/-- C9: whenever a non-empty password is provided, the contents request's
query parameters carry its SHA-256 hex digest under `password`, the
plaintext appears in no parameter value (given it differs from the digest
and from the two fixed parameter values), and with no password no
`password` parameter is sent at all. -/
theorem c9_password_digest (p : String) (hp : p ≠ "")
    (h1 : sha256Hex p ≠ p) (h2 : p ≠ "4fd6sg89d7s6") (h3 : p ≠ "true") :
    ("password", sha256Hex p) ∈ contentsParams (some p) ∧
    (∀ kv ∈ contentsParams (some p), kv.2 ≠ p) ∧
    contentsParams none = [("wt", "4fd6sg89d7s6"), ("cache", "true")] := by
  refine ⟨?_, ?_, rfl⟩
  · simp [contentsParams, hp]
  · intro kv hkv
    simp only [contentsParams, if_neg hp, List.cons_append, List.nil_append, List.mem_cons,
      List.not_mem_nil, or_false] at hkv
    rcases hkv with h | h | h
    · rw [h]
      exact Ne.symm h2
    · rw [h]
      exact Ne.symm h3
    · rw [h]
      exact h1

/-- C9 witness: for the password `"secret"` the request carries
`("password", sha256("secret"))` and no parameter value equals the
plaintext. -/
theorem c9_password_digest_witness :
    ("password", sha256Hex "secret") ∈ contentsParams (some "secret") ∧
    (∀ kv ∈ contentsParams (some "secret"), kv.2 ≠ "secret") := by
  have h := c9_password_digest "secret" (by decide) (by decide) (by decide) (by decide)
  exact ⟨h.1, h.2.1⟩

/-- C10: after every invocation of `download` — normal return, the
empty-manifest early return, or any of the raising terminations
(`invalidInput` for a URL without the `/d/` shape, `authFailure` when the
token cannot be acquired, `resolutionFailure` when a node fetch fails) —
the shared manifest is restored to empty and the index counter to zero.
The `downloadBody` conjunct shows the restoration is not vacuous: at the
resolution failure the body's state holds a partially filled manifest,
which the `finally` step then clears. -/
theorem c10_download_resets_state :
    (∀ env rootDir url st fs,
      (download env rootDir url st fs).2.1 = (⟨[], 0⟩ : DState)) ∧
    (download envEmpty "dl" "nourl" ⟨[], 0⟩ []).1 = .err .invalidInput ∧
    (download envAuthFail "dl" "https://gofile.io/d/abc" ⟨[], 0⟩ []).1 = .err .authFailure ∧
    (downloadBody envResFail "dl" "https://gofile.io/d/abc" ⟨[], 0⟩ []).2.1.filesInfo ≠ [] ∧
    (download envResFail "dl" "https://gofile.io/d/abc" ⟨[], 0⟩ []).1 =
      .err .resolutionFailure ∧
    (download envEmpty "dl" "https://gofile.io/d/abc" ⟨[], 0⟩ []).1 = .ok ∧
    (download envOneFile "dl" "https://gofile.io/d/abc" ⟨[], 0⟩ []).1 = .ok := by
  refine ⟨fun env rootDir url st fs => rfl, ?_, ?_, ?_, ?_, ?_, ?_⟩ <;> decide

end GoFileWeb
